import Mathlib

/-
Shallow embedding of `cargo-workspace-unused-pub` (src/main.rs): a pipeline
that narrows a candidate set of possibly-unused pub functions through three
passes over a SCIP symbol graph plus a textual scan, then locates and
reports survivors grouped by file, and fails when any finding remains.
External collaborators (CLI parsing, rust-analyzer invocation, directory
traversal) are modelled only at their interface: the decoded index, the
list of scanned files' contents, and the on-disk state of reported files
are inputs to the model.
-/

namespace UnusedPub

/-- Decision procedure for list-of-chars prefix tests, mirroring the
start of a Rust substring search. -/
def listStartsWith : List Char → List Char → Bool
  | [], _ => true
  | _ :: _, [] => false
  | p :: ps, c :: cs => p == c && listStartsWith ps cs

/-- `listHasSub pat l` is true when `pat` occurs contiguously inside `l`:
the semantics of Rust `str::contains` with a literal pattern. -/
def listHasSub (pat : List Char) : List Char → Bool
  | [] => listStartsWith pat []
  | c :: cs => listStartsWith pat (c :: cs) || listHasSub pat cs

/-- `strContains s pat`: Rust `s.contains(pat)`, literal substring search. -/
def strContains (s pat : String) : Bool :=
  listHasSub pat.toList s.toList

/-- The SCIP symbol kinds the tool distinguishes (`Kind::Trait`,
`Kind::Method`, `Kind::Function`); everything else behaves uniformly. -/
inductive Kind where
  | trait
  | method
  | function
  | other
deriving DecidableEq

/-- The `signature_documentation` sub-message; only `relative_path`
is read by the tool. -/
structure SigDoc where
  relative_path : String
deriving DecidableEq

/-- `scip::types::SymbolInformation`, restricted to the fields the tool
reads. `kind = none` models an enum value that fails `enum_value()`. -/
structure SymbolInformation where
  symbol : String
  display_name : String
  kind : Option Kind
  signature_documentation : Option SigDoc
deriving DecidableEq

/-- `scip::types::Occurrence`: symbol id, role bitmask and source range
(SCIP ranges are non-negative, modelled as naturals). -/
structure Occurrence where
  symbol : String
  symbol_roles : Nat
  range : List Nat
deriving DecidableEq

/-- `scip::types::Document`: path, declared symbols, occurrences. -/
structure Document where
  relative_path : String
  symbols : List SymbolInformation
  occurrences : List Occurrence
deriving DecidableEq

/-- `scip::types::Index`: the decoded symbol graph. -/
structure Index where
  documents : List Document
deriving DecidableEq

/-- `SymbolRole::Definition as i32 = 1`; `(o.symbol_roles & 1) == 0`. -/
def isNonDef (o : Occurrence) : Bool :=
  Nat.land o.symbol_roles 1 == 0

/-- `declarations.remove(&sym)`: drop every entry whose key is `sym`
(the map is keyed by `symbol`, so at most one entry matches). -/
def removeDecl (m : List SymbolInformation) (sym : String) : List SymbolInformation :=
  m.filter (fun d => d.symbol != sym)

/-- `declarations.insert(&s.symbol, s)`: last write for a key wins. -/
def insertDecl (m : List SymbolInformation) (s : SymbolInformation) : List SymbolInformation :=
  removeDecl m s.symbol ++ [s]

/-- One step of the declaration collector (body of the `for s in &doc.symbols`
loop): traits record their display name, methods and functions are inserted
into the candidate map, unparseable kinds are skipped. -/
def collectSym (acc : List SymbolInformation × List String) (s : SymbolInformation) :
    List SymbolInformation × List String :=
  match s.kind with
  | none => acc
  | some k =>
    let traits := if k = Kind.trait then acc.2 ++ [s.display_name] else acc.2
    if k = Kind.method ∨ k = Kind.function then (insertDecl acc.1 s, traits)
    else (acc.1, traits)

/-- Collector, per document. -/
def collectDoc (acc : List SymbolInformation × List String) (doc : Document) :
    List SymbolInformation × List String :=
  doc.symbols.foldl collectSym acc

/-- Declaration collector: candidate map and trait-name set from the graph. -/
def collect (idx : Index) : List SymbolInformation × List String :=
  idx.documents.foldl collectDoc ([], [])

/-- One step of Pass 1: a non-definition occurrence removes its symbol. -/
def pass1Occ (m : List SymbolInformation) (o : Occurrence) : List SymbolInformation :=
  if isNonDef o then removeDecl m o.symbol else m

/-- Pass 1, per document. -/
def pass1Doc (m : List SymbolInformation) (doc : Document) : List SymbolInformation :=
  doc.occurrences.foldl pass1Occ m

/-- Pass 1 (reference eliminator): sweep all occurrences of all documents. -/
def pass1 (idx : Index) (m : List SymbolInformation) : List SymbolInformation :=
  idx.documents.foldl pass1Doc m

/-- Whether the graph records some non-definition occurrence of `sym`. -/
def hasNonDefOcc (idx : Index) (sym : String) : Bool :=
  idx.documents.any (fun doc => doc.occurrences.any (fun o => isNonDef o && o.symbol == sym))

/-- Pass 2 retain predicate (the closure at `declarations.retain`): keep a
candidate only if its id avoids "test", it is not named "main", its
source-file hint (when present) avoids "test", and no recorded trait
name occurs inside its id. -/
def pass2Keep (traits : List String) (d : SymbolInformation) : Bool :=
  !(strContains d.symbol "test") &&
  (d.display_name != "main") &&
  (match d.signature_documentation with
   | some sd => !(strContains sd.relative_path "test")
   | none => true) &&
  traits.all (fun t => !(strContains d.symbol t))

/-- Pass 2 (heuristic filter). -/
def pass2 (traits : List String) (m : List SymbolInformation) : List SymbolInformation :=
  m.filter (pass2Keep traits)

/-- `*counts.entry(&d.symbol).or_default() += 1` on the counter map,
modelled as a total function with default 0. -/
def bump (c : String → Nat) (s : String) : String → Nat :=
  fun t => if t = s then c t + 1 else c t

/-- Pass 3 inner loop body: one candidate against one line. -/
def scanLineCand (line : String) (c : String → Nat) (d : SymbolInformation) : String → Nat :=
  if strContains line d.display_name then bump c d.symbol else c

/-- Pass 3: one line against all remaining candidates. -/
def scanLine (cands : List SymbolInformation) (c : String → Nat) (line : String) : String → Nat :=
  cands.foldl (scanLineCand line) c

/-- Pass 3: all lines of one scanned file. -/
def scanFileLines (cands : List SymbolInformation) (c : String → Nat) (lines : List String) :
    String → Nat :=
  lines.foldl (scanLine cands) c

/-- Pass 3 counter map after scanning every file, starting from empty. -/
def pass3counts (files : List (List String)) (cands : List SymbolInformation) : String → Nat :=
  files.foldl (scanFileLines cands) (fun _ => 0)

/-- How many candidates of `cands` with symbol id `s` match `line`. -/
def lineMatchCount (cands : List SymbolInformation) (s : String) (line : String) : Nat :=
  cands.countP (fun d => d.symbol == s && strContains line d.display_name)

/-- Per-file total of `lineMatchCount`. -/
def fileMatchCount (cands : List SymbolInformation) (s : String) (lines : List String) : Nat :=
  (lines.map (lineMatchCount cands s)).sum

/-- Number of scanned lines (across all files, with multiplicity) that
contain `name` as a literal substring. -/
def totalLineMatches (files : List (List String)) (name : String) : Nat :=
  (files.map (fun lines => lines.countP (fun line => strContains line name))).sum

/-- Result of `std::fs::read_to_string` on one traversed file in Pass 3:
`good` carries the lines, `bad` models an I/O error (the code `unwrap`s). -/
inductive FileRead where
  | good (lines : List String)
  | bad
deriving DecidableEq

/-- Contents of the files whose reads succeed. -/
def goodLines : List FileRead → List (List String)
  | [] => []
  | FileRead.good l :: rest => l :: goodLines rest
  | FileRead.bad :: rest => goodLines rest

/-- Whether every Pass 3 file read succeeds (otherwise `unwrap` panics). -/
def scanOk (scan : List FileRead) : Bool :=
  scan.all (fun f =>
    match f with
    | FileRead.good _ => true
    | FileRead.bad => false)

/-- Locator step (body of the second graph sweep): an occurrence whose
symbol is still a candidate and whose Definition bit is set becomes a
finding and its symbol leaves the candidate map. -/
def locStep (path : String) (acc : List (String × Occurrence) × List SymbolInformation)
    (o : Occurrence) : List (String × Occurrence) × List SymbolInformation :=
  if acc.2.any (fun d => d.symbol == o.symbol) && decide (0 < Nat.land o.symbol_roles 1) then
    (acc.1 ++ [(path, o)], removeDecl acc.2 o.symbol)
  else acc

/-- Locator, per document. -/
def locateDoc (acc : List (String × Occurrence) × List SymbolInformation) (doc : Document) :
    List (String × Occurrence) × List SymbolInformation :=
  doc.occurrences.foldl (locStep doc.relative_path) acc

/-- Locator: second sweep over the whole graph; returns the findings in
sweep order together with what remains of the candidate map. -/
def locate (idx : Index) (m : List SymbolInformation) :
    List (String × Occurrence) × List SymbolInformation :=
  idx.documents.foldl locateDoc ([], m)

/-- Boolean string comparison used to sort group paths
(`sort_by_key` on the path). -/
def strLeB (a b : String) : Bool := decide (a ≤ b)

/-- Boolean comparison on occurrences by starting line
(`sort_by_key(|occ| occ.range[0])`; `headD` is safe because the reporter
panics earlier on an empty range). -/
def occLe (a b : Occurrence) : Bool := decide (a.range.headD 0 ≤ b.range.headD 0)

/-- Insert `a` after every element `b` with `le b a`: the insertion step
of a stable ascending sort. -/
def insertSorted {α : Type} (le : α → α → Bool) (a : α) : List α → List α
  | [] => [a]
  | b :: bs => if le b a then b :: insertSorted le a bs else a :: b :: bs

/-- Stable ascending sort by the comparison `le`, modelling Rust's stable
`sort_by_key` (structural recursion so that concrete runs evaluate). -/
def sortBy {α : Type} (le : α → α → Bool) (l : List α) : List α :=
  l.foldl (fun acc a => insertSorted le a acc) []

/-- The distinct document paths of the findings, sorted ascending
(`into_group_map` keys after `sort_by_key`). -/
def groupPaths (findings : List (String × Occurrence)) : List String :=
  sortBy strLeB ((findings.map Prod.fst).dedup)

/-- Findings grouped by document path, groups sorted by path; inside a
group the occurrences keep sweep order (as `into_group_map` does). -/
def groupedFindings (findings : List (String × Occurrence)) :
    List (String × List Occurrence) :=
  (groupPaths findings).map (fun p => (p, (findings.filter (fun f => f.1 == p)).map Prod.snd))

/-- On-disk state of a reported file: missing, unreadable, or its lines. -/
inductive FsEntry where
  | absent
  | readFailure
  | content (lines : List String)
deriving DecidableEq

/-- Console events emitted by the reporter. -/
inductive RepEvent where
  | warnMissing (path : String)
  | header (path : String)
  | findingLine (lineNumber : Nat) (text : String)
  | blank
deriving DecidableEq

/-- How the reporter can abort: a failed read propagated with `?`, or a
panic from an out-of-bounds index. -/
inductive RepErr where
  | readFailed
  | panicked
deriving DecidableEq

/-- The display loop over the sorted groups: missing file warns and skips;
an unreadable file aborts via `?`; otherwise the group's occurrences are
sorted by starting line and printed as header, one line per finding
(1-based line number and the literal source line), then a blank line.
Indexing `occ.range[0]` on an empty range or `lines[line]` out of bounds
panics. -/
def reportGroups (fs : String → FsEntry) :
    List (String × List Occurrence) → Except RepErr (List RepEvent)
  | [] => Except.ok []
  | (path, occs) :: rest =>
    match fs path with
    | FsEntry.absent =>
      match reportGroups fs rest with
      | Except.ok evs => Except.ok (RepEvent.warnMissing path :: evs)
      | Except.error e => Except.error e
    | FsEntry.readFailure => Except.error RepErr.readFailed
    | FsEntry.content lines =>
      if occs.all (fun o => !o.range.isEmpty) then
        if (sortBy occLe occs).all (fun o => decide (o.range.headD 0 < lines.length)) then
          match reportGroups fs rest with
          | Except.ok evs =>
            Except.ok (RepEvent.header path ::
              ((sortBy occLe occs).map (fun o =>
                RepEvent.findingLine (o.range.headD 0 + 1) (lines.getD (o.range.headD 0) ""))
               ++ ([RepEvent.blank] ++ evs)))
          | Except.error e => Except.error e
        else Except.error RepErr.panicked
      else Except.error RepErr.panicked

/-- Events one group should produce according to the spec's reporting
sentence: the path header, then per finding (sorted by starting line
ascending) its 1-based line number with the literal source line text,
then a blank line. -/
def specGroupEvents (fs : String → FsEntry) (g : String × List Occurrence) : List RepEvent :=
  match fs g.1 with
  | FsEntry.content lines =>
    RepEvent.header g.1 ::
      ((sortBy occLe g.2).map (fun o =>
        RepEvent.findingLine (o.range.headD 0 + 1) (lines.getD (o.range.headD 0) ""))
       ++ [RepEvent.blank])
  | _ => []

/-- Concatenation of `specGroupEvents` over all groups. -/
def specEventsAll (fs : String → FsEntry) : List (String × List Occurrence) → List RepEvent
  | [] => []
  | g :: rest => specGroupEvents fs g ++ specEventsAll fs rest

/-- The `anyhow::Error` values `main_impl` can return. -/
inductive AppErr where
  | bail (msg : String)
  | parseErr (msg : String)
  | reportReadErr
  | findings (n : Nat)
deriving DecidableEq

/-- Result of one run: normal return, an error returned to `main`, or a
process-aborting panic. -/
inductive RunOutcome where
  | ok
  | err (e : AppErr)
  | panicked
deriving DecidableEq

/-- The human-readable message logged by `main` for each error. -/
def errMessage : AppErr → String
  | AppErr.bail msg => msg
  | AppErr.parseErr msg => msg
  | AppErr.reportReadErr => "error reading source file"
  | AppErr.findings n => "Found " ++ toString n ++ " possibly unused functions"

/-- Candidate map after the collector, Pass 1 and Pass 2. -/
def candidatesAfterPass2 (idx : Index) : List SymbolInformation :=
  pass2 (collect idx).2 (pass1 idx (collect idx).1)

/-- Pass 3 retain step, parameterised by the iteration order `ord` of the
candidate map used while counting (a hash map iterates in unspecified
order; the code uses the same map being retained). -/
def pass3With (idx : Index) (scan : List FileRead) (ord : List SymbolInformation) :
    List SymbolInformation :=
  (candidatesAfterPass2 idx).filter
    (fun d => decide (pass3counts (goodLines scan) ord d.symbol ≤ 1))

/-- Candidate map after Pass 3 with the canonical iteration order. -/
def candidatesAfterPass3 (idx : Index) (scan : List FileRead) : List SymbolInformation :=
  pass3With idx scan (candidatesAfterPass2 idx)

/-- `n_found`: the count reported and used for the exit decision. -/
def nFoundOf (idx : Index) (scan : List FileRead) : Nat :=
  (candidatesAfterPass3 idx scan).length

/-- Findings of the locator sweep, Pass 3 order parameterised. -/
def findingsWith (idx : Index) (scan : List FileRead) (ord : List SymbolInformation) :
    List (String × Occurrence) :=
  (locate idx (pass3With idx scan ord)).1

/-- Findings of the locator sweep. -/
def findingsOf (idx : Index) (scan : List FileRead) : List (String × Occurrence) :=
  findingsWith idx scan (candidatesAfterPass2 idx)

/-- Sorted finding groups, Pass 3 order parameterised. -/
def groupsWith (idx : Index) (scan : List FileRead) (ord : List SymbolInformation) :
    List (String × List Occurrence) :=
  groupedFindings (findingsWith idx scan ord)

/-- Sorted finding groups of the run. -/
def groupsOf (idx : Index) (scan : List FileRead) : List (String × List Occurrence) :=
  groupsWith idx scan (candidatesAfterPass2 idx)

/-- Whether a reporter result is a normal return. -/
def repIsOk : Except RepErr (List RepEvent) → Bool
  | Except.ok _ => true
  | Except.error _ => false

/-- The pipeline from the decoded index to the outcome, with the Pass 3
candidate iteration order as an explicit parameter. -/
def runPipelineWith (idx : Index) (scan : List FileRead) (fs : String → FsEntry)
    (ord : List SymbolInformation) : RunOutcome :=
  if !scanOk scan then RunOutcome.panicked
  else
    match reportGroups fs (groupsWith idx scan ord) with
    | Except.error RepErr.readFailed => RunOutcome.err AppErr.reportReadErr
    | Except.error RepErr.panicked => RunOutcome.panicked
    | Except.ok _ =>
      if (pass3With idx scan ord).length = 0 then RunOutcome.ok
      else RunOutcome.err (AppErr.findings (pass3With idx scan ord).length)

/-- The pipeline with the canonical iteration order. -/
def runPipeline (idx : Index) (scan : List FileRead) (fs : String → FsEntry) : RunOutcome :=
  runPipelineWith idx scan fs (candidatesAfterPass2 idx)

/-- `main_impl` from its interface boundary: Cargo.toml marker check, the
decoded result of opening and parsing the SCIP index, then the pipeline. -/
def main_impl (cargoTomlExists : Bool) (parsed : Except String Index) (scan : List FileRead)
    (fs : String → FsEntry) : RunOutcome :=
  if !cargoTomlExists then RunOutcome.err (AppErr.bail "workspace does not contain a Cargo.toml file")
  else
    match parsed with
    | Except.error e => RunOutcome.err (AppErr.parseErr e)
    | Except.ok idx => runPipelineWith idx scan fs (candidatesAfterPass2 idx)

/-- Process exit status: `main` maps any returned error to
`std::process::exit(2)`; a Rust panic aborts the process with 101. -/
def mainExitCode : RunOutcome → Nat
  | RunOutcome.ok => 0
  | RunOutcome.err _ => 2
  | RunOutcome.panicked => 101

/-- Invariant of the locator sweep relative to the initial candidate map
`m`: the remaining map is a sublist of `m`, finding symbols are pairwise
distinct, no finding symbol is still in the map, and every finding symbol
came from `m`. -/
def locInv (m : List SymbolInformation)
    (acc : List (String × Occurrence) × List SymbolInformation) : Prop :=
  acc.2.Sublist m ∧
  (acc.1.map (fun f => f.2.symbol)).Nodup ∧
  (∀ f ∈ acc.1, ∀ d ∈ acc.2, d.symbol ≠ f.2.symbol) ∧
  (∀ f ∈ acc.1, f.2.symbol ∈ m.map SymbolInformation.symbol)

/-- Concrete fixture: a pub function `foo` with a single Definition
occurrence and no uses. -/
def exOcc : Occurrence :=
  { symbol := "sA", symbol_roles := 1, range := [10, 0, 10, 5] }

/-- Fixture symbol `foo`. -/
def exSym : SymbolInformation :=
  { symbol := "sA", display_name := "foo", kind := some Kind.function,
    signature_documentation := none }

/-- Fixture document. -/
def exDoc : Document :=
  { relative_path := "lib.rs", symbols := [exSym], occurrences := [exOcc] }

/-- Fixture index. -/
def exIdx : Index := { documents := [exDoc] }

/-- Fixture scanned tree: one file, one line mentioning `foo`. -/
def exScan : List FileRead := [FileRead.good ["pub fn foo()"]]

/-- Fixture disk state: `lib.rs` has 11 lines, all other paths missing. -/
def exFs : String → FsEntry := fun p =>
  if p = "lib.rs" then FsEntry.content (List.replicate 11 "pub fn foo()") else FsEntry.absent

/-- Fixture: Definition occurrence of `bar`. -/
def exOccDefB : Occurrence :=
  { symbol := "sB", symbol_roles := 1, range := [3, 0, 3, 3] }

/-- Fixture: a non-Definition (ReadAccess) occurrence of `bar`. -/
def exOccUseB : Occurrence :=
  { symbol := "sB", symbol_roles := 8, range := [7, 0, 7, 3] }

/-- Fixture symbol `bar`, which has a use. -/
def exSymB : SymbolInformation :=
  { symbol := "sB", display_name := "bar", kind := some Kind.function,
    signature_documentation := none }

/-- Fixture index where `bar` has a non-definition occurrence. -/
def exIdx2 : Index :=
  { documents := [{ relative_path := "lib.rs", symbols := [exSymB],
                    occurrences := [exOccDefB, exOccUseB] }] }

/-- Fixture symbol named exactly `main`. -/
def exSymMain : SymbolInformation :=
  { symbol := "sMain", display_name := "main", kind := some Kind.function,
    signature_documentation := none }

/-- Fixture index declaring only `main`, with its definition occurrence. -/
def exIdx3 : Index :=
  { documents := [{ relative_path := "main.rs", symbols := [exSymMain],
                    occurrences := [{ symbol := "sMain", symbol_roles := 1,
                                      range := [0, 0, 0, 4] }] }] }

/-- Fixture occurrence whose start line 99 exceeds the 11-line file. -/
def exBadOcc : Occurrence :=
  { symbol := "sA", symbol_roles := 1, range := [99, 0, 99, 3] }

/-- Fixture group list containing an out-of-bounds occurrence. -/
def exBadGroups : List (String × List Occurrence) := [("lib.rs", [exBadOcc])]

/-- Fixture group list whose file is missing on disk. -/
def exGoneGroups : List (String × List Occurrence) := [("gone.rs", [exOcc])]

/-- Fixture disk state where every path exists but fails to read. -/
def exFsBad : String → FsEntry := fun _ => FsEntry.readFailure

theorem mem_removeDecl {m : List SymbolInformation} {sym : String} {d : SymbolInformation} :
    d ∈ removeDecl m sym ↔ d ∈ m ∧ d.symbol ≠ sym := by
  simp [removeDecl, List.mem_filter]

theorem removeDecl_sublist (m : List SymbolInformation) (sym : String) :
    (removeDecl m sym).Sublist m :=
  List.filter_sublist m

theorem pass1Occ_sublist (m : List SymbolInformation) (o : Occurrence) :
    (pass1Occ m o).Sublist m := by
  unfold pass1Occ
  split
  · exact removeDecl_sublist m o.symbol
  · exact List.Sublist.refl m

theorem mem_pass1Occ {m : List SymbolInformation} {o : Occurrence} {d : SymbolInformation} :
    d ∈ pass1Occ m o ↔ d ∈ m ∧ (isNonDef o = true → o.symbol ≠ d.symbol) := by
  unfold pass1Occ
  split
  case isTrue h =>
    rw [mem_removeDecl]
    constructor
    · rintro ⟨hm, hne⟩; exact ⟨hm, fun _ he => hne he.symm⟩
    · rintro ⟨hm, hne⟩; exact ⟨hm, fun he => hne h he.symm⟩
  case isFalse h =>
    constructor
    · intro hm; exact ⟨hm, fun ht => absurd ht h⟩
    · exact fun hp => hp.1

theorem mem_pass1Doc {m : List SymbolInformation} {doc : Document} {d : SymbolInformation} :
    d ∈ pass1Doc m doc ↔
      d ∈ m ∧ ∀ o ∈ doc.occurrences, isNonDef o = true → o.symbol ≠ d.symbol := by
  unfold pass1Doc
  generalize doc.occurrences = occs
  induction occs generalizing m with
  | nil => simp
  | cons o rest ih =>
    simp only [List.foldl_cons, ih, mem_pass1Occ, List.mem_cons]
    constructor
    · rintro ⟨⟨hm, ho⟩, hrest⟩
      refine ⟨hm, ?_⟩
      rintro o' (rfl | ho') <;> [exact ho; exact hrest o' ho']
    · rintro ⟨hm, hall⟩
      exact ⟨⟨hm, hall o (Or.inl rfl)⟩, fun o' ho' => hall o' (Or.inr ho')⟩

theorem mem_pass1 {idx : Index} {m : List SymbolInformation} {d : SymbolInformation} :
    d ∈ pass1 idx m ↔
      d ∈ m ∧ ∀ doc ∈ idx.documents, ∀ o ∈ doc.occurrences,
        isNonDef o = true → o.symbol ≠ d.symbol := by
  unfold pass1
  generalize idx.documents = docs
  induction docs generalizing m with
  | nil => simp
  | cons doc rest ih =>
    simp only [List.foldl_cons, ih, mem_pass1Doc, List.mem_cons]
    constructor
    · rintro ⟨⟨hm, hdoc⟩, hrest⟩
      refine ⟨hm, ?_⟩
      rintro doc' (rfl | hd') <;> [exact hdoc; exact hrest doc' hd']
    · rintro ⟨hm, hall⟩
      exact ⟨⟨hm, hall doc (Or.inl rfl)⟩, fun doc' hd' => hall doc' (Or.inr hd')⟩

theorem hasNonDefOcc_iff {idx : Index} {sym : String} :
    hasNonDefOcc idx sym = true ↔
      ∃ doc ∈ idx.documents, ∃ o ∈ doc.occurrences, isNonDef o = true ∧ o.symbol = sym := by
  simp [hasNonDefOcc, List.any_eq_true]

theorem mem_pass1_iff_not_nonDef {idx : Index} {m : List SymbolInformation}
    {d : SymbolInformation} :
    d ∈ pass1 idx m ↔ d ∈ m ∧ hasNonDefOcc idx d.symbol = false := by
  rw [mem_pass1]
  constructor
  · rintro ⟨hm, hall⟩
    refine ⟨hm, ?_⟩
    rw [Bool.eq_false_iff]
    intro hT
    obtain ⟨doc, hdoc, o, ho, hnd, hsym⟩ := hasNonDefOcc_iff.mp hT
    exact hall doc hdoc o ho hnd hsym
  · rintro ⟨hm, hF⟩
    refine ⟨hm, ?_⟩
    intro doc hdoc o ho hnd hsym
    rw [Bool.eq_false_iff] at hF
    exact hF (hasNonDefOcc_iff.mpr ⟨doc, hdoc, o, ho, hnd, hsym⟩)

theorem pass2Keep_iff {traits : List String} {d : SymbolInformation} :
    pass2Keep traits d = true ↔
      strContains d.symbol "test" = false ∧
      d.display_name ≠ "main" ∧
      (∀ sd, d.signature_documentation = some sd → strContains sd.relative_path "test" = false) ∧
      (∀ t ∈ traits, strContains d.symbol t = false) := by
  cases hsd : d.signature_documentation with
  | none => simp [pass2Keep, hsd, List.all_eq_true, and_assoc]
  | some sd => simp [pass2Keep, hsd, List.all_eq_true, and_assoc]

theorem mem_pass2 {traits : List String} {m : List SymbolInformation} {d : SymbolInformation} :
    d ∈ pass2 traits m ↔ d ∈ m ∧ pass2Keep traits d = true := by
  simp [pass2, List.mem_filter]

theorem pass2_sublist (traits : List String) (m : List SymbolInformation) :
    (pass2 traits m).Sublist m :=
  List.filter_sublist m

theorem scanLineCand_apply (line : String) (c : String → Nat) (d : SymbolInformation)
    (s : String) :
    scanLineCand line c d s =
      c s + (if (d.symbol == s && strContains line d.display_name) then 1 else 0) := by
  unfold scanLineCand bump
  cases h1 : strContains line d.display_name with
  | false => simp [h1]
  | true =>
    by_cases h2 : d.symbol = s
    · subst h2
      simp [h1]
    · have hs : ¬(s = d.symbol) := fun h => h2 h.symm
      simp [h1, h2, hs]

theorem scanLine_apply (cands : List SymbolInformation) (c : String → Nat) (line : String)
    (s : String) :
    scanLine cands c line s = c s + lineMatchCount cands s line := by
  unfold scanLine lineMatchCount
  induction cands generalizing c with
  | nil => simp
  | cons d rest ih =>
    simp only [List.foldl_cons, List.countP_cons, ih, scanLineCand_apply]
    omega

theorem scanFileLines_apply (cands : List SymbolInformation) (c : String → Nat)
    (lines : List String) (s : String) :
    scanFileLines cands c lines s = c s + fileMatchCount cands s lines := by
  unfold scanFileLines fileMatchCount
  induction lines generalizing c with
  | nil => simp
  | cons line rest ih =>
    simp only [List.foldl_cons, List.map_cons, List.sum_cons, ih, scanLine_apply]
    omega

theorem pass3counts_apply (files : List (List String)) (cands : List SymbolInformation)
    (s : String) :
    pass3counts files cands s = (files.map (fileMatchCount cands s)).sum := by
  unfold pass3counts
  have h : ∀ (fl : List (List String)) (c : String → Nat),
      fl.foldl (scanFileLines cands) c s = c s + (fl.map (fileMatchCount cands s)).sum := by
    intro fl
    induction fl with
    | nil => simp
    | cons lines rest ih =>
      intro c
      simp only [List.foldl_cons, List.map_cons, List.sum_cons, ih, scanFileLines_apply]
      omega
  simpa using h files (fun _ => 0)

theorem countP_eq_sum_map {α : Type} (p : α → Bool) (l : List α) :
    l.countP p = (l.map (fun a => if p a then 1 else 0)).sum := by
  induction l with
  | nil => simp
  | cons a rest ih => simp [List.countP_cons, ih]; omega

theorem lineMatchCount_eq_ite {cands : List SymbolInformation} {d : SymbolInformation}
    (hnd : (cands.map SymbolInformation.symbol).Nodup) (hd : d ∈ cands) (line : String) :
    lineMatchCount cands d.symbol line = if strContains line d.display_name then 1 else 0 := by
  unfold lineMatchCount
  induction cands with
  | nil => cases hd
  | cons e rest ih =>
    simp only [List.map_cons, List.nodup_cons] at hnd
    rcases List.mem_cons.mp hd with heq | hdr
    · subst heq
      rw [List.countP_cons]
      have hzero : rest.countP
          (fun x => x.symbol == d.symbol && strContains line x.display_name) = 0 := by
        rw [List.countP_eq_zero]
        intro x hx
        simp only [Bool.and_eq_true, beq_iff_eq, not_and]
        intro hsym _
        exact hnd.1 (hsym ▸ List.mem_map_of_mem SymbolInformation.symbol hx)
      simp [hzero, beq_iff_eq]
    · have hpe : (e.symbol == d.symbol && strContains line e.display_name) = false := by
        have hne : e.symbol ≠ d.symbol := by
          intro h
          exact hnd.1 (h ▸ List.mem_map_of_mem SymbolInformation.symbol hdr)
        simp [hne]
      rw [List.countP_cons, ih hnd.2 hdr, hpe]
      simp

theorem pass3counts_eq_totalLineMatches {files : List (List String)}
    {cands : List SymbolInformation} {d : SymbolInformation}
    (hnd : (cands.map SymbolInformation.symbol).Nodup) (hd : d ∈ cands) :
    pass3counts files cands d.symbol = totalLineMatches files d.display_name := by
  rw [pass3counts_apply]
  unfold totalLineMatches
  congr 1
  apply List.map_congr_left
  intro lines _
  unfold fileMatchCount
  rw [countP_eq_sum_map]
  congr 1
  apply List.map_congr_left
  intro line _
  exact lineMatchCount_eq_ite hnd hd line

theorem pass3counts_perm {files : List (List String)} {l1 l2 : List SymbolInformation}
    (h : l1.Perm l2) (s : String) :
    pass3counts files l1 s = pass3counts files l2 s := by
  rw [pass3counts_apply, pass3counts_apply]
  congr 1
  apply List.map_congr_left
  intro lines _
  unfold fileMatchCount
  congr 1
  apply List.map_congr_left
  intro line _
  exact h.countP_eq _

theorem foldl_preserve {α β : Type} (P : β → Prop) (f : β → α → β)
    (hstep : ∀ b a, P b → P (f b a)) :
    ∀ (l : List α) (b : β), P b → P (l.foldl f b) := by
  intro l
  induction l with
  | nil => intro b hb; simpa using hb
  | cons a rest ih => intro b hb; simpa using ih (f b a) (hstep b a hb)

theorem insertDecl_nodup {m : List SymbolInformation} (s : SymbolInformation)
    (h : (m.map SymbolInformation.symbol).Nodup) :
    ((insertDecl m s).map SymbolInformation.symbol).Nodup := by
  unfold insertDecl
  rw [List.map_append, List.nodup_append]
  refine ⟨List.Nodup.sublist ((removeDecl_sublist m s.symbol).map SymbolInformation.symbol) h,
    List.nodup_singleton _, ?_⟩
  intro x hx
  obtain ⟨d, hd, rfl⟩ := List.mem_map.mp hx
  have hne := (mem_removeDecl.mp hd).2
  simp [hne]

theorem collectSym_nodup (acc : List SymbolInformation × List String) (s : SymbolInformation)
    (h : (acc.1.map SymbolInformation.symbol).Nodup) :
    ((collectSym acc s).1.map SymbolInformation.symbol).Nodup := by
  unfold collectSym
  cases s.kind with
  | none => exact h
  | some k =>
    by_cases hk : k = Kind.method ∨ k = Kind.function <;> simp [hk, insertDecl_nodup s h, h]

theorem collect_nodup (idx : Index) :
    ((collect idx).1.map SymbolInformation.symbol).Nodup := by
  unfold collect
  apply foldl_preserve (fun acc => (acc.1.map SymbolInformation.symbol).Nodup) collectDoc
  · intro b doc hb
    unfold collectDoc
    exact foldl_preserve _ collectSym (fun b' s hb' => collectSym_nodup b' s hb')
      doc.symbols b hb
  · simp

theorem pass1Doc_sublist (m : List SymbolInformation) (doc : Document) :
    (pass1Doc m doc).Sublist m := by
  unfold pass1Doc
  exact foldl_preserve (fun x => x.Sublist m) pass1Occ
    (fun b a hb => (pass1Occ_sublist b a).trans hb) doc.occurrences m (List.Sublist.refl m)

theorem pass1_sublist (idx : Index) (m : List SymbolInformation) :
    (pass1 idx m).Sublist m := by
  unfold pass1
  exact foldl_preserve (fun x => x.Sublist m) pass1Doc
    (fun b doc hb => (pass1Doc_sublist b doc).trans hb) idx.documents m (List.Sublist.refl m)

theorem candidatesAfterPass2_sublist (idx : Index) :
    (candidatesAfterPass2 idx).Sublist (collect idx).1 := by
  unfold candidatesAfterPass2
  exact (pass2_sublist _ _).trans (pass1_sublist idx (collect idx).1)

theorem candidatesAfterPass2_nodup (idx : Index) :
    ((candidatesAfterPass2 idx).map SymbolInformation.symbol).Nodup :=
  List.Nodup.sublist ((candidatesAfterPass2_sublist idx).map SymbolInformation.symbol)
    (collect_nodup idx)

theorem pass3With_sublist (idx : Index) (scan : List FileRead) (ord : List SymbolInformation) :
    (pass3With idx scan ord).Sublist (candidatesAfterPass2 idx) :=
  List.filter_sublist _

theorem locStep_inv {m : List SymbolInformation} {path : String}
    {acc : List (String × Occurrence) × List SymbolInformation} (o : Occurrence)
    (h : locInv m acc) : locInv m (locStep path acc o) := by
  unfold locStep
  split
  case isTrue hc =>
    obtain ⟨hsub, hnd, hsep, hmem⟩ := h
    have hc1 : acc.2.any (fun d => d.symbol == o.symbol) = true := by
      simp only [Bool.and_eq_true] at hc
      exact hc.1
    rw [List.any_eq_true] at hc1
    obtain ⟨d0, hd0, hd0s⟩ := hc1
    rw [beq_iff_eq] at hd0s
    refine ⟨(removeDecl_sublist _ _).trans hsub, ?_, ?_, ?_⟩
    · rw [List.map_append, List.nodup_append]
      refine ⟨hnd, by simp, ?_⟩
      intro x hx
      obtain ⟨f, hf, rfl⟩ := List.mem_map.mp hx
      have hne := hsep f hf d0 hd0
      simp only [List.map_cons, List.map_nil, List.mem_singleton]
      intro he
      exact hne (hd0s.trans he.symm)
    · intro f hf d hd
      rcases List.mem_append.mp hf with hfo | hfn
      · exact hsep f hfo d ((mem_removeDecl.mp hd).1)
      · have : f = (path, o) := by simpa using hfn
        subst this
        exact (mem_removeDecl.mp hd).2
    · intro f hf
      rcases List.mem_append.mp hf with hfo | hfn
      · exact hmem f hfo
      · have : f = (path, o) := by simpa using hfn
        subst this
        have : d0 ∈ m := hsub.subset hd0
        exact hd0s ▸ List.mem_map_of_mem SymbolInformation.symbol this
  case isFalse hc => exact h

theorem locate_inv (idx : Index) (m : List SymbolInformation) : locInv m (locate idx m) := by
  unfold locate
  apply foldl_preserve (locInv m) locateDoc
  · intro b doc hb
    unfold locateDoc
    exact foldl_preserve (locInv m) (locStep doc.relative_path)
      (fun b' o hb' => locStep_inv o hb') doc.occurrences b hb
  · exact ⟨List.Sublist.refl m, List.nodup_nil, by simp, by simp⟩

theorem locate_remaining_sublist (idx : Index) (m : List SymbolInformation) :
    (locate idx m).2.Sublist m :=
  (locate_inv idx m).1

theorem locate_findings_nodup (idx : Index) (m : List SymbolInformation) :
    ((locate idx m).1.map (fun f => f.2.symbol)).Nodup :=
  (locate_inv idx m).2.1

theorem locate_findings_from (idx : Index) (m : List SymbolInformation) :
    ∀ f ∈ (locate idx m).1, f.2.symbol ∈ m.map SymbolInformation.symbol :=
  (locate_inv idx m).2.2.2

theorem locate_nil_findings (idx : Index) : (locate idx []).1 = [] := by
  have h := locate_findings_from idx []
  simp only [List.map_nil, List.not_mem_nil] at h
  exact List.eq_nil_iff_forall_not_mem.mpr (fun f hf => h f hf)

theorem strLeB_trans : ∀ (a b c : String), strLeB a b → strLeB b c → strLeB a c := by
  intro a b c hab hbc
  exact decide_eq_true (le_trans (of_decide_eq_true hab) (of_decide_eq_true hbc))

theorem strLeB_total : ∀ (a b : String), strLeB a b || strLeB b a := by
  intro a b
  rcases le_total a b with h | h <;> simp [strLeB, h]

theorem occLe_trans : ∀ (a b c : Occurrence), occLe a b → occLe b c → occLe a c := by
  intro a b c hab hbc
  exact decide_eq_true (le_trans (of_decide_eq_true hab) (of_decide_eq_true hbc))

theorem occLe_total : ∀ (a b : Occurrence), occLe a b || occLe b a := by
  intro a b
  unfold occLe
  rcases Nat.le_total (a.range.headD 0) (b.range.headD 0) with h | h
  · rw [decide_eq_true h]
    exact Bool.true_or _
  · rw [decide_eq_true h]
    exact Bool.or_true _

theorem insertSorted_perm {α : Type} (le : α → α → Bool) (a : α) (l : List α) :
    (insertSorted le a l).Perm (a :: l) := by
  induction l with
  | nil => exact List.Perm.refl _
  | cons b bs ih =>
    unfold insertSorted
    split
    · exact (List.Perm.cons b ih).trans (List.Perm.swap a b bs)
    · exact List.Perm.refl _

theorem sortBy_perm {α : Type} (le : α → α → Bool) (l : List α) : (sortBy le l).Perm l := by
  have h : ∀ (l acc : List α),
      (l.foldl (fun acc a => insertSorted le a acc) acc).Perm (acc ++ l) := by
    intro l
    induction l with
    | nil => intro acc; simp
    | cons a rest ih =>
      intro acc
      refine (ih (insertSorted le a acc)).trans ?_
      refine (List.Perm.append_right rest (insertSorted_perm le a acc)).trans ?_
      exact (List.perm_middle).symm
  simpa using h l []

theorem mem_sortBy {α : Type} {le : α → α → Bool} {a : α} {l : List α} :
    a ∈ sortBy le l ↔ a ∈ l :=
  (sortBy_perm le l).mem_iff

theorem insertSorted_pairwise {α : Type} {le : α → α → Bool}
    (htrans : ∀ a b c, le a b = true → le b c = true → le a c = true)
    (htotal : ∀ a b, (le a b || le b a) = true) {a : α} {l : List α}
    (h : l.Pairwise (fun x y => le x y = true)) :
    (insertSorted le a l).Pairwise (fun x y => le x y = true) := by
  induction l with
  | nil => simp [insertSorted]
  | cons b bs ih =>
    rw [List.pairwise_cons] at h
    unfold insertSorted
    split
    case isTrue hba =>
      rw [List.pairwise_cons]
      refine ⟨?_, ih h.2⟩
      intro x hx
      rcases List.mem_cons.mp ((insertSorted_perm le a bs).mem_iff.mp hx) with rfl | hxbs
      · exact hba
      · exact h.1 x hxbs
    case isFalse hba =>
      have hfalse : le b a = false := Bool.eq_false_iff.mpr hba
      have ht := htotal a b
      rw [hfalse, Bool.or_false] at ht
      rw [List.pairwise_cons]
      refine ⟨?_, List.pairwise_cons.mpr h⟩
      intro x hx
      rcases List.mem_cons.mp hx with rfl | hxbs
      · exact ht
      · exact htrans a b x ht (h.1 x hxbs)

theorem sortBy_sorted {α : Type} {le : α → α → Bool}
    (htrans : ∀ a b c, le a b = true → le b c = true → le a c = true)
    (htotal : ∀ a b, (le a b || le b a) = true) (l : List α) :
    (sortBy le l).Pairwise (fun x y => le x y = true) := by
  unfold sortBy
  exact foldl_preserve (fun acc => acc.Pairwise fun x y => le x y = true) _
    (fun b a hb => insertSorted_pairwise htrans htotal hb) l [] List.Pairwise.nil

theorem groupPaths_sorted (findings : List (String × Occurrence)) :
    (groupPaths findings).Pairwise (fun a b => strLeB a b = true) :=
  sortBy_sorted strLeB_trans strLeB_total _

theorem groupPaths_nodup (findings : List (String × Occurrence)) :
    (groupPaths findings).Nodup :=
  ((sortBy_perm strLeB _).nodup_iff).mpr (List.nodup_dedup _)

theorem groupPaths_strict_sorted (findings : List (String × Occurrence)) :
    (groupPaths findings).Pairwise (fun a b : String => a < b) := by
  have h1 := groupPaths_sorted findings
  have h2 : (groupPaths findings).Pairwise (fun a b : String => a ≠ b) :=
    groupPaths_nodup findings
  exact (h1.and h2).imp (fun h => lt_of_le_of_ne (of_decide_eq_true h.1) h.2)

theorem mem_groupPaths {findings : List (String × Occurrence)} {p : String} :
    p ∈ groupPaths findings ↔ p ∈ findings.map Prod.fst := by
  unfold groupPaths
  rw [mem_sortBy, List.mem_dedup]

theorem groupedFindings_fst (findings : List (String × Occurrence)) :
    (groupedFindings findings).map Prod.fst = groupPaths findings := by
  unfold groupedFindings
  generalize groupPaths findings = ps
  induction ps with
  | nil => rfl
  | cons p rest ih => simp only [List.map_cons, ih]

theorem mem_groupedFindings {findings : List (String × Occurrence)}
    {g : String × List Occurrence} :
    g ∈ groupedFindings findings ↔
      g.1 ∈ groupPaths findings ∧
      g.2 = (findings.filter (fun f => f.1 == g.1)).map Prod.snd := by
  unfold groupedFindings
  rw [List.mem_map]
  constructor
  · rintro ⟨p, hp, rfl⟩
    exact ⟨hp, rfl⟩
  · rintro ⟨hp, hg⟩
    refine ⟨g.1, hp, ?_⟩
    rw [← hg]

theorem reportGroups_ok_of_renderable (fs : String → FsEntry)
    (groups : List (String × List Occurrence))
    (h : ∀ g ∈ groups, ∃ lines, fs g.1 = FsEntry.content lines ∧
         ∀ o ∈ g.2, o.range ≠ [] ∧ o.range.headD 0 < lines.length) :
    reportGroups fs groups = Except.ok (specEventsAll fs groups) := by
  induction groups with
  | nil => rfl
  | cons g rest ih =>
    obtain ⟨lines, hfs, hocc⟩ := h g (List.mem_cons_self g rest)
    have hrest := ih (fun g' hg' => h g' (List.mem_cons_of_mem g hg'))
    obtain ⟨path, occs⟩ := g
    have hall1 : occs.all (fun o => !o.range.isEmpty) = true := by
      rw [List.all_eq_true]
      intro o ho
      have h1 := (hocc o ho).1
      simp [List.isEmpty_iff, h1]
    have hall2 : (sortBy occLe occs).all
        (fun o => decide (o.range.headD 0 < lines.length)) = true := by
      rw [List.all_eq_true]
      intro o ho
      rw [mem_sortBy] at ho
      exact decide_eq_true (hocc o ho).2
    simp only [reportGroups, hfs, hall1, hall2, if_true, hrest, specEventsAll,
      specGroupEvents, List.cons_append, List.append_assoc]

theorem reportGroups_absent_skip (fs : String → FsEntry) (path : String)
    (occs : List Occurrence) (rest : List (String × List Occurrence))
    (h : fs path = FsEntry.absent) :
    reportGroups fs ((path, occs) :: rest) =
      (match reportGroups fs rest with
       | Except.ok evs => Except.ok (RepEvent.warnMissing path :: evs)
       | Except.error e => Except.error e) := by
  simp only [reportGroups, h]

theorem reportGroups_all_absent (fs : String → FsEntry)
    (groups : List (String × List Occurrence))
    (h : ∀ g ∈ groups, fs g.1 = FsEntry.absent) :
    reportGroups fs groups = Except.ok (groups.map (fun g => RepEvent.warnMissing g.1)) := by
  induction groups with
  | nil => rfl
  | cons g rest ih =>
    obtain ⟨path, occs⟩ := g
    have hg : fs path = FsEntry.absent := h (path, occs) (List.mem_cons_self _ _)
    have hrest := ih (fun g' hg' => h g' (List.mem_cons_of_mem _ hg'))
    simp only [reportGroups, hg, hrest, List.map_cons]

theorem reportGroups_panic (fs : String → FsEntry)
    (groups : List (String × List Occurrence))
    (hno : ∀ g ∈ groups, fs g.1 ≠ FsEntry.readFailure)
    (hbad : ∃ g ∈ groups, ∃ lines, fs g.1 = FsEntry.content lines ∧
            ∃ o ∈ g.2, o.range = [] ∨ lines.length ≤ o.range.headD 0) :
    reportGroups fs groups = Except.error RepErr.panicked := by
  induction groups with
  | nil => simp at hbad
  | cons g rest ih =>
    obtain ⟨path, occs⟩ := g
    have hnorest : ∀ g' ∈ rest, fs g'.1 ≠ FsEntry.readFailure :=
      fun g' hg' => hno g' (List.mem_cons_of_mem _ hg')
    cases hfs : fs path with
    | readFailure => exact absurd hfs (hno (path, occs) (List.mem_cons_self _ _))
    | absent =>
      have hbad' : ∃ g ∈ rest, ∃ lines, fs g.1 = FsEntry.content lines ∧
          ∃ o ∈ g.2, o.range = [] ∨ lines.length ≤ o.range.headD 0 := by
        obtain ⟨gw, hgw, lines, hfs', hw⟩ := hbad
        rcases List.mem_cons.mp hgw with heq | hmem
        · have hfs2 : fs path = FsEntry.content lines := by
            rw [heq] at hfs'
            exact hfs'
          rw [hfs] at hfs2
          exact FsEntry.noConfusion hfs2
        · exact ⟨gw, hmem, lines, hfs', hw⟩
      simp only [reportGroups, hfs, ih hnorest hbad']
    | content lines =>
      by_cases h1 : occs.all (fun o => !o.range.isEmpty) = true
      · by_cases h2 : (sortBy occLe occs).all
            (fun o => decide (o.range.headD 0 < lines.length)) = true
        · have hbad' : ∃ g ∈ rest, ∃ lines, fs g.1 = FsEntry.content lines ∧
              ∃ o ∈ g.2, o.range = [] ∨ lines.length ≤ o.range.headD 0 := by
            obtain ⟨gw, hgw, lines', hfs', o, ho, hw⟩ := hbad
            rcases List.mem_cons.mp hgw with heq | hmem
            · have hfs2 : fs path = FsEntry.content lines' := by
                rw [heq] at hfs'
                exact hfs'
              rw [hfs] at hfs2
              injection hfs2 with hl
              subst hl
              have ho2 : o ∈ occs := by
                rw [heq] at ho
                exact ho
              rw [List.all_eq_true] at h1 h2
              rcases hw with hempty | hoob
              · have hx := h1 o ho2
                rw [hempty] at hx
                simp at hx
              · have hx := h2 o (mem_sortBy.mpr ho2)
                rw [decide_eq_true_iff] at hx
                omega
            · exact ⟨gw, hmem, lines', hfs', o, ho, hw⟩
          simp only [reportGroups, hfs, h1, h2, if_true, ih hnorest hbad']
        · simp only [reportGroups, hfs, h1, if_true]
          rw [if_neg h2]
      · simp only [reportGroups, hfs]
        rw [if_neg h1]

theorem runPipeline_eq (idx : Index) (scan : List FileRead) (fs : String → FsEntry)
    (h1 : scanOk scan = true)
    (h2 : repIsOk (reportGroups fs (groupsOf idx scan)) = true) :
    runPipeline idx scan fs =
      if nFoundOf idx scan = 0 then RunOutcome.ok
      else RunOutcome.err (AppErr.findings (nFoundOf idx scan)) := by
  cases hrep : reportGroups fs (groupsOf idx scan) with
  | error e =>
    rw [hrep] at h2
    simp [repIsOk] at h2
  | ok evs =>
    unfold runPipeline runPipelineWith
    rw [show groupsWith idx scan (candidatesAfterPass2 idx) = groupsOf idx scan from rfl,
      hrep, h1]
    rfl

theorem runPipeline_zero_ok (idx : Index) (scan : List FileRead) (fs : String → FsEntry)
    (h1 : scanOk scan = true) (h0 : nFoundOf idx scan = 0) :
    runPipeline idx scan fs = RunOutcome.ok := by
  have hempty : candidatesAfterPass3 idx scan = [] := List.length_eq_zero.mp h0
  have hfind : findingsOf idx scan = [] := by
    unfold findingsOf findingsWith
    rw [show pass3With idx scan (candidatesAfterPass2 idx) = candidatesAfterPass3 idx scan
      from rfl, hempty]
    exact locate_nil_findings idx
  have hgroups : groupsOf idx scan = [] := by
    unfold groupsOf groupsWith
    rw [show findingsWith idx scan (candidatesAfterPass2 idx) = findingsOf idx scan from rfl,
      hfind]
    rfl
  have hrep : repIsOk (reportGroups fs (groupsOf idx scan)) = true := by
    rw [hgroups]
    rfl
  rw [runPipeline_eq idx scan fs h1 hrep, if_pos h0]

theorem pass3With_perm (idx : Index) (scan : List FileRead) {ord : List SymbolInformation}
    (h : ord.Perm (candidatesAfterPass2 idx)) :
    pass3With idx scan ord = candidatesAfterPass3 idx scan := by
  unfold candidatesAfterPass3 pass3With
  apply List.filter_congr
  intro d _
  rw [pass3counts_perm h d.symbol]

theorem runPipelineWith_perm (idx : Index) (scan : List FileRead) (fs : String → FsEntry)
    {ord : List SymbolInformation} (h : ord.Perm (candidatesAfterPass2 idx)) :
    runPipelineWith idx scan fs ord = runPipeline idx scan fs := by
  unfold runPipeline runPipelineWith groupsWith findingsWith
  rw [pass3With_perm idx scan h, pass3With_perm idx scan (List.Perm.refl _)]

/-- Claim C1: provided the Pass 3 reads succeed and the reporter returns
normally, the run succeeds exactly when the total number of findings is
zero; when it is nonzero the run fails with a non-zero exit status,
carrying the total count in the human-readable failure message. -/
theorem claim_c1 (idx : Index) (scan : List FileRead) (fs : String → FsEntry)
    (h1 : scanOk scan = true)
    (h2 : repIsOk (reportGroups fs (groupsOf idx scan)) = true) :
    (runPipeline idx scan fs = RunOutcome.ok ↔ nFoundOf idx scan = 0) ∧
    (nFoundOf idx scan = 0 → mainExitCode (runPipeline idx scan fs) = 0) ∧
    (nFoundOf idx scan ≠ 0 →
      runPipeline idx scan fs = RunOutcome.err (AppErr.findings (nFoundOf idx scan)) ∧
      mainExitCode (runPipeline idx scan fs) = 2 ∧
      errMessage (AppErr.findings (nFoundOf idx scan)) =
        "Found " ++ toString (nFoundOf idx scan) ++ " possibly unused functions") := by
  have he := runPipeline_eq idx scan fs h1 h2
  by_cases h0 : nFoundOf idx scan = 0
  · rw [if_pos h0] at he
    exact ⟨⟨fun _ => h0, fun _ => he⟩, fun _ => by rw [he]; rfl, fun hn => absurd h0 hn⟩
  · rw [if_neg h0] at he
    refine ⟨⟨fun hok => ?_, fun hz => absurd hz h0⟩, fun hz => absurd hz h0,
      fun _ => ⟨he, by rw [he]; rfl, rfl⟩⟩
    rw [he] at hok
    exact RunOutcome.noConfusion hok

/-- Claim C1 witness: on the fixture with one unused `foo`, the reads
succeed, the reporter returns normally, and the run fails carrying 1. -/
theorem claim_c1_witness :
    scanOk exScan = true ∧
    repIsOk (reportGroups exFs (groupsOf exIdx exScan)) = true ∧
    nFoundOf exIdx exScan = 1 ∧
    runPipeline exIdx exScan exFs = RunOutcome.err (AppErr.findings 1) := by
  have h := (claim_c1 exIdx exScan exFs (by decide) (by decide)).2.2 (by decide)
  refine ⟨by decide, by decide, by decide, ?_⟩
  have h1 := h.1
  rw [show nFoundOf exIdx exScan = 1 from by decide] at h1
  exact h1

/-- Claim C2: a symbol with any occurrence lacking the Definition role bit
is removed by Pass 1 (the surviving map records no such symbol), and such
a symbol id never appears among the findings, whatever the scanned tree. -/
theorem claim_c2 (idx : Index) :
    (∀ d ∈ pass1 idx (collect idx).1, hasNonDefOcc idx d.symbol = false) ∧
    (∀ sym, hasNonDefOcc idx sym = true →
      (∀ d ∈ pass1 idx (collect idx).1, d.symbol ≠ sym) ∧
      (∀ scan : List FileRead, ∀ f ∈ findingsOf idx scan, f.2.symbol ≠ sym)) := by
  constructor
  · intro d hd
    exact (mem_pass1_iff_not_nonDef.mp hd).2
  · intro sym hsym
    have hnot : ∀ d ∈ pass1 idx (collect idx).1, d.symbol ≠ sym := by
      intro d hd he
      have hF := (mem_pass1_iff_not_nonDef.mp hd).2
      rw [he, hsym] at hF
      exact Bool.noConfusion hF
    refine ⟨hnot, ?_⟩
    intro scan f hf he
    have hf' : f ∈ (locate idx (pass3With idx scan (candidatesAfterPass2 idx))).1 := hf
    have hmem := locate_findings_from idx _ f hf'
    obtain ⟨d, hd, hds⟩ := List.mem_map.mp hmem
    have hd2 : d ∈ candidatesAfterPass2 idx := (pass3With_sublist idx scan _).subset hd
    have hd1 : d ∈ pass1 idx (collect idx).1 := by
      unfold candidatesAfterPass2 at hd2
      exact (pass2_sublist _ _).subset hd2
    exact hnot d hd1 (by rw [hds, he])

/-- Claim C2 witness: `bar` has a ReadAccess occurrence, so Pass 1 leaves
no candidate with its symbol id. -/
theorem claim_c2_witness :
    hasNonDefOcc exIdx2 "sB" = true ∧
    (∀ d ∈ pass1 exIdx2 (collect exIdx2).1, d.symbol ≠ "sB") :=
  ⟨by decide, ((claim_c2 exIdx2).2 "sB" (by decide)).1⟩

/-- Claim C3: Pass 2 retains a candidate exactly when its id avoids the
substring "test", its display name is not "main", its source-file hint
(when present) avoids "test" (no hint passes), and no recorded trait name
occurs inside its id; consequently every finding locates a candidate
satisfying all of these. -/
theorem claim_c3 (idx : Index) :
    (∀ d, d ∈ candidatesAfterPass2 idx ↔
      (d ∈ pass1 idx (collect idx).1 ∧
       strContains d.symbol "test" = false ∧
       d.display_name ≠ "main" ∧
       (∀ sd, d.signature_documentation = some sd →
         strContains sd.relative_path "test" = false) ∧
       (∀ t ∈ (collect idx).2, strContains d.symbol t = false))) ∧
    (∀ scan : List FileRead, ∀ f ∈ findingsOf idx scan,
      ∃ d ∈ pass1 idx (collect idx).1, d.symbol = f.2.symbol ∧
        strContains d.symbol "test" = false ∧
        d.display_name ≠ "main" ∧
        (∀ t ∈ (collect idx).2, strContains d.symbol t = false)) := by
  have hiff : ∀ d, d ∈ candidatesAfterPass2 idx ↔
      (d ∈ pass1 idx (collect idx).1 ∧
       strContains d.symbol "test" = false ∧
       d.display_name ≠ "main" ∧
       (∀ sd, d.signature_documentation = some sd →
         strContains sd.relative_path "test" = false) ∧
       (∀ t ∈ (collect idx).2, strContains d.symbol t = false)) := by
    intro d
    unfold candidatesAfterPass2
    rw [mem_pass2, pass2Keep_iff]
  refine ⟨hiff, ?_⟩
  intro scan f hf
  have hf' : f ∈ (locate idx (pass3With idx scan (candidatesAfterPass2 idx))).1 := hf
  have hmem := locate_findings_from idx _ f hf'
  obtain ⟨d, hd, hds⟩ := List.mem_map.mp hmem
  have hd2 : d ∈ candidatesAfterPass2 idx := (pass3With_sublist idx scan _).subset hd
  obtain ⟨hd1, hA, hB, _, hD⟩ := (hiff d).mp hd2
  exact ⟨d, hd1, hds, hA, hB, hD⟩

/-- Claim C3 witness: the symbol named exactly `main` is gone after
Pass 2 on the fixture declaring only `main`. -/
theorem claim_c3_witness : exSymMain ∉ candidatesAfterPass2 exIdx3 := by
  intro h
  have hc := ((claim_c3 exIdx3).1 exSymMain).mp h
  exact hc.2.2.1 rfl

/-- Claim C4: the Pass 3 counter of each remaining candidate equals the
number of scanned lines containing its display name as a literal
substring, and a candidate survives Pass 3 exactly when that number is
at most 1. -/
theorem claim_c4 (idx : Index) (scan : List FileRead) :
    (∀ d ∈ candidatesAfterPass2 idx,
      pass3counts (goodLines scan) (candidatesAfterPass2 idx) d.symbol =
        totalLineMatches (goodLines scan) d.display_name) ∧
    (∀ d, d ∈ candidatesAfterPass3 idx scan ↔
      (d ∈ candidatesAfterPass2 idx ∧
       totalLineMatches (goodLines scan) d.display_name ≤ 1)) := by
  have hnd := candidatesAfterPass2_nodup idx
  have hcount : ∀ d ∈ candidatesAfterPass2 idx,
      pass3counts (goodLines scan) (candidatesAfterPass2 idx) d.symbol =
        totalLineMatches (goodLines scan) d.display_name :=
    fun d hd => pass3counts_eq_totalLineMatches hnd hd
  refine ⟨hcount, ?_⟩
  intro d
  unfold candidatesAfterPass3 pass3With
  rw [List.mem_filter]
  constructor
  · rintro ⟨hd, hle⟩
    rw [decide_eq_true_iff, hcount d hd] at hle
    exact ⟨hd, hle⟩
  · rintro ⟨hd, hle⟩
    refine ⟨hd, ?_⟩
    rw [decide_eq_true_iff, hcount d hd]
    exact hle

/-- Claim C4 witness: `foo` appears on exactly one scanned line and
survives Pass 3 on the fixture. -/
theorem claim_c4_witness :
    totalLineMatches (goodLines exScan) "foo" = 1 ∧
    exSym ∈ candidatesAfterPass3 exIdx exScan :=
  ⟨by decide, ((claim_c4 exIdx exScan).2 exSym).mpr ⟨by decide, by decide⟩⟩

/-- Claim C5: candidate membership only shrinks along the pipeline: each
stage's candidate map (and its set of symbol ids) is contained in the
preceding stage's, including the locator sweep. -/
theorem claim_c5 (idx : Index) (scan : List FileRead) :
    candidatesAfterPass3 idx scan ⊆ candidatesAfterPass2 idx ∧
    candidatesAfterPass2 idx ⊆ pass1 idx (collect idx).1 ∧
    pass1 idx (collect idx).1 ⊆ (collect idx).1 ∧
    (locate idx (candidatesAfterPass3 idx scan)).2 ⊆ candidatesAfterPass3 idx scan ∧
    (candidatesAfterPass3 idx scan).map SymbolInformation.symbol ⊆
      (candidatesAfterPass2 idx).map SymbolInformation.symbol ∧
    (candidatesAfterPass2 idx).map SymbolInformation.symbol ⊆
      (pass1 idx (collect idx).1).map SymbolInformation.symbol ∧
    ((locate idx (candidatesAfterPass3 idx scan)).2).map SymbolInformation.symbol ⊆
      (candidatesAfterPass3 idx scan).map SymbolInformation.symbol := by
  have h32 : (candidatesAfterPass3 idx scan).Sublist (candidatesAfterPass2 idx) :=
    pass3With_sublist idx scan _
  have h21 : (candidatesAfterPass2 idx).Sublist (pass1 idx (collect idx).1) := by
    unfold candidatesAfterPass2
    exact pass2_sublist _ _
  have hloc : ((locate idx (candidatesAfterPass3 idx scan)).2).Sublist
      (candidatesAfterPass3 idx scan) :=
    locate_remaining_sublist idx _
  exact ⟨h32.subset, h21.subset, (pass1_sublist idx _).subset, hloc.subset,
    (h32.map SymbolInformation.symbol).subset, (h21.map SymbolInformation.symbol).subset,
    (hloc.map SymbolInformation.symbol).subset⟩

/-- Claim C5 witness: on the fixture, the Pass 3 survivors sit inside the
Pass 2 candidates. -/
theorem claim_c5_witness :
    candidatesAfterPass3 exIdx exScan ⊆ candidatesAfterPass2 exIdx :=
  (claim_c5 exIdx exScan).1

/-- Claim C6 counterexample: a run that fails from an index parse error
exits with status 2, the same status used when findings are greater than
zero — not a distinct one — and an I/O error while reading a scanned file
during Pass 3 panics instead of bubbling up to the logged error path. -/
theorem claim_c6_counterexample :
    main_impl true (Except.error "disk error") [] exFs =
      RunOutcome.err (AppErr.parseErr "disk error") ∧
    mainExitCode (main_impl true (Except.error "disk error") [] exFs) = 2 ∧
    main_impl true (Except.ok exIdx) exScan exFs = RunOutcome.err (AppErr.findings 1) ∧
    mainExitCode (main_impl true (Except.ok exIdx) exScan exFs) = 2 ∧
    mainExitCode (main_impl true (Except.error "disk error") [] exFs) =
      mainExitCode (main_impl true (Except.ok exIdx) exScan exFs) ∧
    main_impl true (Except.ok exIdx) [FileRead.bad] exFs = RunOutcome.panicked :=
  ⟨by decide, by decide, by decide, by decide, by decide, by decide⟩

/-- Claim C6 (amended): failures surfaced as `Result`s — an index
open/parse failure, or a failed read of a group's file during reporting —
bubble up unmodified to the top level, which logs them and exits with the
non-zero status 2, the same status as the findings-greater-than-zero
failure rather than a distinct one; an I/O error while reading a scanned
file during Pass 3 does not bubble up: the `unwrap` panics, aborting with
the panic status instead. -/
theorem claim_c6 :
    (∀ (e : String) (scan : List FileRead) (fs : String → FsEntry),
      main_impl true (Except.error e) scan fs = RunOutcome.err (AppErr.parseErr e) ∧
      errMessage (AppErr.parseErr e) = e ∧
      mainExitCode (main_impl true (Except.error e) scan fs) = 2) ∧
    (∀ (idx : Index) (scan : List FileRead) (fs : String → FsEntry),
      scanOk scan = true →
      reportGroups fs (groupsOf idx scan) = Except.error RepErr.readFailed →
      runPipeline idx scan fs = RunOutcome.err AppErr.reportReadErr ∧
      mainExitCode (runPipeline idx scan fs) = 2) ∧
    (∀ (idx : Index) (scan : List FileRead) (fs : String → FsEntry),
      scanOk scan = false →
      runPipeline idx scan fs = RunOutcome.panicked ∧
      mainExitCode (runPipeline idx scan fs) = 101) := by
  refine ⟨fun e scan fs => ⟨rfl, rfl, rfl⟩, ?_, ?_⟩
  · intro idx scan fs h1 hrep
    have hx : runPipeline idx scan fs = RunOutcome.err AppErr.reportReadErr := by
      unfold runPipeline runPipelineWith
      rw [show groupsWith idx scan (candidatesAfterPass2 idx) = groupsOf idx scan from rfl,
        hrep, h1]
      rfl
    exact ⟨hx, by rw [hx]; rfl⟩
  · intro idx scan fs h0
    have hx : runPipeline idx scan fs = RunOutcome.panicked := by
      unfold runPipeline runPipelineWith
      rw [h0]
      rfl
    exact ⟨hx, by rw [hx]; rfl⟩

/-- Claim C6 witness: the amended claim applied to concrete runs — a parse
error is returned unmodified, an unreadable reported file gives the error
exit, and a failed Pass 3 read panics. -/
theorem claim_c6_witness :
    main_impl true (Except.error "oops") [] exFs = RunOutcome.err (AppErr.parseErr "oops") ∧
    runPipeline exIdx exScan exFsBad = RunOutcome.err AppErr.reportReadErr ∧
    runPipeline exIdx [FileRead.bad] exFs = RunOutcome.panicked :=
  ⟨(claim_c6.1 "oops" [] exFs).1,
   (claim_c6.2.1 exIdx exScan exFsBad (by decide) rfl).1,
   (claim_c6.2.2 exIdx [FileRead.bad] exFs (by decide)).1⟩

/-- Claim C7: each surviving candidate is located at most once (finding
symbols are pairwise distinct), the finding groups carry strictly
ascending paths, each group holds exactly the findings of its path in
sweep order, occurrences are printed sorted by starting line ascending,
and when every group's file is on disk the reporter emits, per group, the
path header then one line per finding with its 1-based line number and
the literal source line text. -/
theorem claim_c7 (idx : Index) (scan : List FileRead) (fs : String → FsEntry) :
    ((findingsOf idx scan).map (fun f => f.2.symbol)).Nodup ∧
    ((groupsOf idx scan).map Prod.fst).Pairwise (fun a b : String => a < b) ∧
    (∀ g ∈ groupsOf idx scan,
      g.2 = ((findingsOf idx scan).filter (fun f => f.1 == g.1)).map Prod.snd ∧
      (sortBy occLe g.2).Pairwise (fun a b => a.range.headD 0 ≤ b.range.headD 0)) ∧
    ((∀ g ∈ groupsOf idx scan, ∃ lines, fs g.1 = FsEntry.content lines ∧
        ∀ o ∈ g.2, o.range ≠ [] ∧ o.range.headD 0 < lines.length) →
      reportGroups fs (groupsOf idx scan) =
        Except.ok (specEventsAll fs (groupsOf idx scan))) := by
  refine ⟨locate_findings_nodup idx _, ?_, ?_, ?_⟩
  · have hf : (groupsOf idx scan).map Prod.fst = groupPaths (findingsOf idx scan) :=
      groupedFindings_fst _
    rw [hf]
    exact groupPaths_strict_sorted _
  · intro g hg
    have hg' : g ∈ groupedFindings (findingsOf idx scan) := hg
    refine ⟨(mem_groupedFindings.mp hg').2, ?_⟩
    exact (sortBy_sorted occLe_trans occLe_total g.2).imp (fun h => of_decide_eq_true h)
  · intro hren
    exact reportGroups_ok_of_renderable fs _ hren

/-- Claim C7 witness: the fixture's single group renders to its header and
one finding line with the 1-based line number. -/
theorem claim_c7_witness :
    (∀ g ∈ groupsOf exIdx exScan, ∃ lines, exFs g.1 = FsEntry.content lines ∧
      ∀ o ∈ g.2, o.range ≠ [] ∧ o.range.headD 0 < lines.length) ∧
    reportGroups exFs (groupsOf exIdx exScan) =
      Except.ok (specEventsAll exFs (groupsOf exIdx exScan)) := by
  have hgrp : groupsOf exIdx exScan = [("lib.rs", [exOcc])] := by decide
  have hren : ∀ g ∈ groupsOf exIdx exScan, ∃ lines, exFs g.1 = FsEntry.content lines ∧
      ∀ o ∈ g.2, o.range ≠ [] ∧ o.range.headD 0 < lines.length := by
    rw [hgrp]
    intro g hg
    rw [List.mem_singleton] at hg
    subst hg
    exact ⟨List.replicate 11 "pub fn foo()", by decide, by decide⟩
  exact ⟨hren, (claim_c7 exIdx exScan exFs).2.2.2 hren⟩

/-- Claim C8: when a group's file is absent on disk, the reporter emits a
warning and skips that group, continuing with the remaining groups and
propagating only their outcome; if every remaining file is also absent the
whole report still returns normally with one warning per group. -/
theorem claim_c8 (fs : String → FsEntry) (path : String) (occs : List Occurrence)
    (rest : List (String × List Occurrence)) (h : fs path = FsEntry.absent) :
    (∀ e, reportGroups fs rest = Except.error e →
      reportGroups fs ((path, occs) :: rest) = Except.error e) ∧
    (∀ evs, reportGroups fs rest = Except.ok evs →
      reportGroups fs ((path, occs) :: rest) =
        Except.ok (RepEvent.warnMissing path :: evs)) ∧
    ((∀ g ∈ rest, fs g.1 = FsEntry.absent) →
      reportGroups fs ((path, occs) :: rest) =
        Except.ok (RepEvent.warnMissing path ::
          rest.map (fun g => RepEvent.warnMissing g.1))) := by
  refine ⟨?_, ?_, ?_⟩
  · intro e he
    rw [reportGroups_absent_skip fs path occs rest h, he]
  · intro evs he
    rw [reportGroups_absent_skip fs path occs rest h, he]
  · intro hall
    have hx := reportGroups_all_absent fs ((path, occs) :: rest) ?_
    · simpa using hx
    · intro g hg
      rcases List.mem_cons.mp hg with heq | hmem
      · rw [heq]
        exact h
      · exact hall g hmem

/-- Claim C8 witness: a missing `gone.rs` produces a warning and a normal
return instead of an error. -/
theorem claim_c8_witness :
    exFs "gone.rs" = FsEntry.absent ∧
    reportGroups exFs [("gone.rs", [exOcc])] =
      Except.ok [RepEvent.warnMissing "gone.rs"] :=
  ⟨by decide, (claim_c8 exFs "gone.rs" [exOcc] [] (by decide)).2.1 [] rfl⟩

/-- Claim C9: the pipeline is deterministic — its findings, groups and
outcome are a function of the index, the scanned tree and the disk state
alone, independent of the unspecified hash-map iteration order used while
counting in Pass 3, so two runs on unchanged inputs agree. -/
theorem claim_c9 (idx : Index) (scan : List FileRead) (fs : String → FsEntry)
    (ord : List SymbolInformation) (h : ord.Perm (candidatesAfterPass2 idx)) :
    pass3With idx scan ord = candidatesAfterPass3 idx scan ∧
    findingsWith idx scan ord = findingsOf idx scan ∧
    groupsWith idx scan ord = groupsOf idx scan ∧
    runPipelineWith idx scan fs ord = runPipeline idx scan fs := by
  have h3 := pass3With_perm idx scan h
  refine ⟨h3, ?_, ?_, runPipelineWith_perm idx scan fs h⟩
  · unfold findingsOf findingsWith
    rw [h3, pass3With_perm idx scan (List.Perm.refl _)]
  · unfold groupsOf groupsWith findingsWith
    rw [h3, pass3With_perm idx scan (List.Perm.refl _)]

/-- Claim C9 witness: iterating the fixture's candidate map in reversed
order leaves the outcome unchanged. -/
theorem claim_c9_witness :
    ((candidatesAfterPass2 exIdx).reverse).Perm (candidatesAfterPass2 exIdx) ∧
    runPipelineWith exIdx exScan exFs ((candidatesAfterPass2 exIdx).reverse) =
      runPipeline exIdx exScan exFs :=
  ⟨List.reverse_perm _,
   (claim_c9 exIdx exScan exFs _ (List.reverse_perm _)).2.2.2⟩

/-- Claim C10: when no group's file read fails outright, a located
occurrence with an empty range, or with a recorded 0-based start line not
below the number of lines of its existing on-disk file, makes the
reporting step panic instead of warning and skipping. -/
theorem claim_c10 (fs : String → FsEntry) (groups : List (String × List Occurrence))
    (hno : ∀ g ∈ groups, fs g.1 ≠ FsEntry.readFailure)
    (hbad : ∃ g ∈ groups, ∃ lines, fs g.1 = FsEntry.content lines ∧
            ∃ o ∈ g.2, o.range = [] ∨ lines.length ≤ o.range.headD 0) :
    reportGroups fs groups = Except.error RepErr.panicked :=
  reportGroups_panic fs groups hno hbad

/-- Claim C10 witness: an occurrence recorded at line 99 of an 11-line
file makes the reporter panic. -/
theorem claim_c10_witness :
    reportGroups exFs exBadGroups = Except.error RepErr.panicked :=
  claim_c10 exFs exBadGroups (by decide)
    ⟨("lib.rs", [exBadOcc]), by decide, List.replicate 11 "pub fn foo()", by decide,
      exBadOcc, by decide, Or.inr (by decide)⟩

end UnusedPub
